import Mathlib

/-!
Verification of the ShreejiFoods storefront/inventory repository.

The development shallowly embeds:
* the SQL schema and triggers of
  `supabase/migrations/20251029034905_create_inventory_system.sql`
  (tables, row-level security, `generate_sku`, `create_default_variant`,
  `prevent_last_variant_delete`, `nullify_empty_category_name`), and
* the pure client-side variant ordering logic of `src/pages/Index.tsx`,
  `src/pages/AdminDashboard.tsx` and `src/components/ProductDetailDialog.tsx`
  (`parseNumericValue`, `parseWeightInGrams`, `sortVariants`, active-variant
  selection, `fetchStoreStatus`).

Conventions of the embedding:
* `uuid` keys and `auth.uid()` identities are modelled as `Nat`.
* Timestamp columns (`last_updated`, `updated_by`) are omitted: no claim
  below concerns them, except `store_status.updated_at` which is kept
  as a `Nat` clock value.
* JavaScript floating point numbers are modelled as exact rationals `ℚ`.
  Because the kernel cannot reduce `Rat.mul`/`Rat.add`/`Rat.sub`/`Rat.div`,
  the executable definitions use `Rat.divInt`-based operations `qmul`,
  `qsub`, `qdiv`, proved equal to `*`, `-`, `/` below.
* A failing SQL statement aborts its transaction; this is modelled by
  `Except`: an `.error` result means the database state is unchanged.
-/

deriving instance DecidableEq for Except

namespace ShreejiFoods

/-! ## Kernel-reducible rational arithmetic -/

/-- Multiplication on `ℚ` via `Rat.divInt` (kernel-reducible). -/
def qmul (a b : ℚ) : ℚ := Rat.divInt (a.num * b.num) (a.den * b.den)

/-- Subtraction on `ℚ` via `Rat.divInt` (kernel-reducible). -/
def qsub (a b : ℚ) : ℚ := Rat.divInt (a.num * b.den - b.num * a.den) (a.den * b.den)

/-- Division on `ℚ` via `Rat.divInt` (kernel-reducible). -/
def qdiv (a b : ℚ) : ℚ := Rat.divInt (a.num * b.den) (a.den * b.num)

theorem num_eq_mul_den (a : ℚ) : ((a.num : ℚ)) = a * a.den := by
  have ha : ((a.den : ℚ)) ≠ 0 := by exact_mod_cast a.den_ne_zero
  have h := Rat.num_div_den a
  rw [div_eq_iff ha] at h
  exact h

theorem qmul_eq (a b : ℚ) : qmul a b = a * b := by
  unfold qmul
  rw [Rat.divInt_eq_div]
  push_cast
  rw [← div_mul_div_comm, Rat.num_div_den, Rat.num_div_den]

theorem qsub_eq (a b : ℚ) : qsub a b = a - b := by
  unfold qsub
  have ha : ((a.den : ℚ)) ≠ 0 := by exact_mod_cast a.den_ne_zero
  have hb : ((b.den : ℚ)) ≠ 0 := by exact_mod_cast b.den_ne_zero
  rw [Rat.divInt_eq_div]
  push_cast
  rw [div_eq_iff (mul_ne_zero ha hb), num_eq_mul_den a, num_eq_mul_den b]
  ring

theorem qdiv_eq (a b : ℚ) : qdiv a b = a / b := by
  unfold qdiv
  rcases eq_or_ne b 0 with hb0 | hb0
  · subst hb0
    simp [Rat.divInt_eq_div]
  · have ha : ((a.den : ℚ)) ≠ 0 := by exact_mod_cast a.den_ne_zero
    have hbn : ((b.num : ℚ)) ≠ 0 := by
      exact_mod_cast Rat.num_ne_zero.mpr hb0
    rw [Rat.divInt_eq_div]
    push_cast
    rw [div_eq_div_iff (mul_ne_zero ha hbn) hb0, num_eq_mul_den a, num_eq_mul_den b]
    ring

/-! ## Character / string helpers -/

/-- `l` begins with `p`. -/
def startsWithL : List Char → List Char → Bool
  | _, [] => true
  | [], _ :: _ => false
  | c :: cs, d :: ds => c = d && startsWithL cs ds

/-- JavaScript `String.prototype.includes`: `p` occurs as a contiguous
substring of `l`. -/
def containsSub : List Char → List Char → Bool
  | [], p => p.isEmpty
  | c :: cs, p => startsWithL (c :: cs) p || containsSub cs p

/-- JavaScript `toLowerCase` (ASCII). -/
def toLowerL (l : List Char) : List Char := l.map Char.toLower

/-! ## Decimal representation of naturals (for `generate_sku` and parsing) -/

/-- Character of a decimal digit `d < 10`. -/
def digitChar (d : Nat) : Char := Char.ofNat (48 + d)

/-- Numeric value of a decimal digit character. -/
def charVal (c : Char) : Nat := c.toNat - 48

/-- Little-endian base-10 digits of `n`, with explicit fuel (structural
recursion, so the kernel can evaluate it). `toDigitsRev fuel n` is correct
whenever `n ≤ fuel`. -/
def toDigitsRev : Nat → Nat → List Nat
  | 0, _ => []
  | _ + 1, 0 => []
  | fuel + 1, n + 1 => (n + 1) % 10 :: toDigitsRev fuel ((n + 1) / 10)

/-- Little-endian evaluation of a base-10 digit list. -/
def ofDigits10 : List Nat → Nat
  | [] => 0
  | d :: ds => d + 10 * ofDigits10 ds

/-- Big-endian decimal character representation of `n` (PostgreSQL
`n::text` for nonnegative `n`). -/
def natRepr (n : Nat) : List Char :=
  if n = 0 then ['0'] else ((toDigitsRev n n).map digitChar).reverse

/-- PostgreSQL `lpad(s, 4, '0')`: pad on the left to length 4, or
TRUNCATE on the right to length 4 if `s` is longer. -/
def lpad4 (l : List Char) : List Char :=
  if 4 ≤ l.length then l.take 4 else List.replicate (4 - l.length) '0' ++ l

/-- `public.generate_sku()` applied to sequence value `n`:
`'SF-' || lpad(n::text, 4, '0')`. -/
def genSku (n : Nat) : String := String.mk ('S' :: 'F' :: '-' :: lpad4 (natRepr n))

/-! ### Correctness of the decimal representation -/

theorem toDigitsRev_correct : ∀ fuel n, n ≤ fuel → ofDigits10 (toDigitsRev fuel n) = n := by
  intro fuel
  induction fuel with
  | zero =>
    intro n hn
    interval_cases n
    rfl
  | succ f ih =>
    intro n hn
    match n with
    | 0 => rfl
    | m + 1 =>
      have hdiv : (m + 1) / 10 ≤ f := by
        have h1 : (m + 1) / 10 < m + 1 := Nat.div_lt_self (Nat.succ_pos m) (by omega)
        omega
      show ofDigits10 ((m + 1) % 10 :: toDigitsRev f ((m + 1) / 10)) = m + 1
      unfold ofDigits10
      rw [ih _ hdiv, Nat.mod_add_div]

theorem toDigitsRev_lt_ten : ∀ fuel n d, d ∈ toDigitsRev fuel n → d < 10 := by
  intro fuel
  induction fuel with
  | zero => intro n d hd; simp [toDigitsRev] at hd
  | succ f ih =>
    intro n d hd
    match n with
    | 0 => simp [toDigitsRev] at hd
    | m + 1 =>
      simp only [toDigitsRev, List.mem_cons] at hd
      rcases hd with h | h
      · omega
      · exact ih _ _ h

theorem toDigitsRev_lt_ten' (fuel n d : Nat) (hd : d ∈ toDigitsRev fuel n) : d < 10 :=
  toDigitsRev_lt_ten fuel n d hd

theorem toDigitsRev_length : ∀ fuel n k, n < 10 ^ k → (toDigitsRev fuel n).length ≤ k := by
  intro fuel
  induction fuel with
  | zero => intro n k _; simp [toDigitsRev]
  | succ f ih =>
    intro n k hn
    match n with
    | 0 => simp [toDigitsRev]
    | m + 1 =>
      match k with
      | 0 => omega
      | j + 1 =>
        have hdiv : (m + 1) / 10 < 10 ^ j := by
          rw [Nat.div_lt_iff_lt_mul (by omega)]
          calc m + 1 < 10 ^ (j + 1) := hn
          _ = 10 ^ j * 10 := by ring
        simpa [toDigitsRev] using ih ((m + 1) / 10) j hdiv

theorem ofDigits10_lt : ∀ l : List Nat, (∀ d ∈ l, d < 10) → ofDigits10 l < 10 ^ l.length := by
  intro l
  induction l with
  | nil => intro _; simp [ofDigits10]
  | cons d ds ih =>
    intro h
    have hd : d < 10 := h d (List.mem_cons_self d ds)
    have hds := ih (fun x hx => h x (List.mem_cons_of_mem d hx))
    simp only [ofDigits10, List.length_cons, pow_succ]
    omega

theorem charVal_digitChar (d : Nat) (h : d < 10) : charVal (digitChar d) = d := by
  interval_cases d <;> decide

theorem charVal_zero_char : charVal '0' = 0 := by decide

theorem ofDigits10_append_zeros : ∀ (l : List Nat) (k : Nat),
    ofDigits10 (l ++ List.replicate k 0) = ofDigits10 l := by
  intro l
  induction l with
  | nil =>
    intro k
    induction k with
    | zero => rfl
    | succ j ihk => simpa [ofDigits10, List.replicate_succ] using ihk
  | cons d ds ih =>
    intro k
    simp [ofDigits10, ih]

/-- Decode a zero-padded big-endian digit string. -/
def decodePadded (l : List Char) : Nat := ofDigits10 (l.reverse.map charVal)

theorem natRepr_length_le (n : Nat) (h : n < 10000) : (natRepr n).length ≤ 4 := by
  unfold natRepr
  split
  · simp
  · simpa using toDigitsRev_length n n 4 h

theorem lpad4_of_le (l : List Char) (h : l.length ≤ 4) :
    lpad4 l = List.replicate (4 - l.length) '0' ++ l := by
  unfold lpad4
  split
  · have h4 : l.length = 4 := by omega
    rw [h4]
    simp [List.take_of_length_le (le_of_eq h4)]
  · rfl

theorem decodePadded_natRepr (n : Nat) (h : n < 10000) :
    decodePadded (lpad4 (natRepr n)) = n := by
  rw [lpad4_of_le _ (natRepr_length_le n h)]
  unfold decodePadded
  rw [List.reverse_append, List.reverse_replicate, List.map_append, List.map_replicate,
    charVal_zero_char, ofDigits10_append_zeros]
  unfold natRepr
  split
  · next h0 => simp [h0, ofDigits10, charVal_zero_char]
  · rw [List.reverse_reverse, List.map_map]
    have hmap : (toDigitsRev n n).map (charVal ∘ digitChar) = toDigitsRev n n := by
      have h1 : ∀ d ∈ toDigitsRev n n, (charVal ∘ digitChar) d = id d := by
        intro d hd
        simp [Function.comp, charVal_digitChar d (toDigitsRev_lt_ten n n d hd)]
      rw [List.map_congr_left h1, List.map_id]
    rw [hmap]
    exact toDigitsRev_correct n n le_rfl

theorem genSku_inj (n m : Nat) (hn : n < 10000) (hm : m < 10000)
    (h : genSku n = genSku m) : n = m := by
  unfold genSku at h
  have hl : lpad4 (natRepr n) = lpad4 (natRepr m) := by
    have := congrArg String.data h
    simpa using this
  have := congrArg decodePadded hl
  rwa [decodePadded_natRepr n hn, decodePadded_natRepr m hm] at this

theorem genSku_length (n : Nat) (h : n < 10000) : (genSku n).length = 7 := by
  show ('S' :: 'F' :: '-' :: lpad4 (natRepr n)).length = 7
  rw [lpad4_of_le _ (natRepr_length_le n h)]
  have := natRepr_length_le n h
  simp only [List.length_cons, List.length_append, List.length_replicate]
  omega

theorem genSku_truncates (n : Nat) (h : 10000 ≤ n) :
    genSku n = String.mk ('S' :: 'F' :: '-' :: (natRepr n).take 4) := by
  unfold genSku lpad4
  have hlen : 4 ≤ (natRepr n).length := by
    unfold natRepr
    split
    · omega
    · have hofd := toDigitsRev_correct n n le_rfl
      have hbound := ofDigits10_lt (toDigitsRev n n) (toDigitsRev_lt_ten n n)
      rw [hofd] at hbound
      have : 10 ^ 4 ≤ 10 ^ (toDigitsRev n n).length :=
        le_trans h (le_of_lt hbound)
      have hle : 4 ≤ (toDigitsRev n n).length :=
        (Nat.pow_le_pow_iff_right (by omega)).mp this
      simpa using hle
  rw [if_pos hlen]

/-! ## Numeric extraction (the JS regex matches) -/

/-- `digitsToNat` of a digit character run (most significant first). -/
def digitsToNat (l : List Char) : Nat := l.foldl (fun a c => 10 * a + charVal c) 0

/-- Exact value of the decimal literal `ip . fp` (integer part, fraction
part), as produced by JS `parseFloat` on `\d+(\.\d+)?` matches. -/
def decimalValue (ip fp : List Char) : ℚ :=
  Rat.divInt (digitsToNat ip * 10 ^ fp.length + digitsToNat fp) (10 ^ fp.length)

/-- Leftmost match of the regex `\d+(?:\.\d+)?` evaluated with
`parseFloat`: scan to the first digit, read the maximal digit run, then an
optional fraction (a dot followed by at least one digit). Shared by the
`numMatch` of every `parseWeightInGrams` copy, and equal to the capture
group of AdminDashboard's `parseNumericValue` regex `[^\d]*(\d+(?:\.\d+)?)`. -/
def extractNumber : List Char → Option ℚ
  | [] => none
  | c :: cs =>
    if c.isDigit then
      let ip := c :: cs.takeWhile Char.isDigit
      match cs.dropWhile Char.isDigit with
      | '.' :: r2 =>
        let fp := r2.takeWhile Char.isDigit
        if fp.isEmpty then some (decimalValue ip []) else some (decimalValue ip fp)
      | _ => some (decimalValue ip [])
    else extractNumber cs

/-- Is `c` matched by the character class `[\d\.]`? -/
def isDigitOrDot (c : Char) : Bool := c.isDigit || c = '.'

/-- JS `parseFloat` restricted to nonempty strings over digits and dots
(the only strings `[\d\.]+` can match): longest valid prefix
`\d*(\.\d*)?` with at least one digit; `none` models `NaN`. -/
def parseFloatDD (l : List Char) : Option ℚ :=
  let ip := l.takeWhile Char.isDigit
  match l.dropWhile Char.isDigit with
  | '.' :: r2 =>
    let fp := r2.takeWhile Char.isDigit
    if ip.isEmpty && fp.isEmpty then none else some (decimalValue ip fp)
  | _ => if ip.isEmpty then none else some (decimalValue ip [])

/-- `parseNumericValue` of `src/pages/Index.tsx` (lines 19-27): first
match of `[\d\.]+`, then `parseFloat`; `null` when there is no match or
`parseFloat` yields `NaN`. `src/components/ProductDetailDialog.tsx`
lines 28-36 are the character-identical function. -/
def parseNumericValue : List Char → Option ℚ
  | [] => none
  | c :: cs =>
    if isDigitOrDot c then parseFloatDD (c :: cs.takeWhile isDigitOrDot)
    else parseNumericValue cs

/-- `parseNumericValue` of `src/pages/AdminDashboard.tsx` (lines 78-86):
`value.match(/[^\d]*(\d+(?:\.\d+)?)/)`, `parseFloat` of capture group 1.
The capture group is exactly the leftmost match of `\d+(?:\.\d+)?`, i.e.
`extractNumber`, and `parseFloat` of it never yields `NaN`. -/
def parseNumericValueAdmin (l : List Char) : Option ℚ := extractNumber l

/-- `parseWeightInGrams`, character-identical in `src/pages/Index.tsx`
(lines 30-58), `src/pages/AdminDashboard.tsx` (lines 89-117) and
`src/components/ProductDetailDialog.tsx` (lines 38-64): extract the first
decimal number of the lowercased value, then branch on unit substrings. -/
def parseWeightInGrams (l : List Char) : Option ℚ :=
  let lower := toLowerL l
  match extractNumber lower with
  | none => none
  | some num =>
    if containsSub lower ['k', 'g'] then some (qmul num 1000)
    else if containsSub lower ['g'] && !containsSub lower ['k', 'g'] then some num
    else if containsSub lower ['m', 'g'] then some (qdiv num 1000)
    else if containsSub lower ['l', 'b'] || containsSub lower ['p', 'o', 'u', 'n', 'd'] then
      some (qmul num (Rat.divInt 453592 1000))
    else if containsSub lower ['o', 'z'] || containsSub lower ['o', 'u', 'n', 'c', 'e'] then
      some (qmul num (Rat.divInt 283495 10000))
    else some num

/-! ## Data model -/

/-- `variant_type` check constraint:
`variant_type IN ('weight', 'pcs', 'price', 'flavor', 'size')`. -/
inductive VariantType
  | weight
  | pcs
  | price
  | flavor
  | size
deriving DecidableEq

/-- A `product_variants` row. `last_updated` / `updated_by` omitted (no
claim concerns them). -/
structure Variant where
  id : Nat
  product_id : Nat
  sku : String
  variant_type : VariantType
  variant_value : String
  price : Int
  quantity : Int
deriving DecidableEq

/-! ## The variant comparator and sort (Ordering & Display Resolver) -/

/-- `localeCompare(..., { sensitivity: 'base' })`, modelled as
code-point comparison of the lowercased strings (ASCII fragment of the
ICU base-sensitivity collation). -/
def lexCmp : List Char → List Char → Ordering
  | [], [] => .eq
  | [], _ :: _ => .lt
  | _ :: _, [] => .gt
  | c :: cs, d :: ds => if c < d then .lt else if d < c then .gt else lexCmp cs ds

/-- JS comparator result of an `Ordering`. -/
def ordToQ : Ordering → ℚ
  | .lt => -1
  | .eq => 0
  | .gt => 1

/-- `a.variant_value.localeCompare(b.variant_value, undefined, { sensitivity: 'base' })`. -/
def ciCompare (x y : List Char) : ℚ := ordToQ (lexCmp (toLowerL x) (toLowerL y))

/-- Body of the `sortVariants` comparator, for a fixed parse function `p`
(the JS if-chain on `aValue`/`bValue` written as a match on the two
`Option` results):
if both parse and differ, `aValue - bValue`; if exactly one parses, the
parsed one first; if neither parses and prices differ, `a.price - b.price`;
otherwise case-insensitive `localeCompare` of the raw values. -/
def cmpWithParse (p : List Char → Option ℚ) (a b : Variant) : ℚ :=
  match p a.variant_value.data, p b.variant_value.data with
  | some x, some y =>
    if x ≠ y then qsub x y
    else ciCompare a.variant_value.data b.variant_value.data
  | some _, none => -1
  | none, some _ => 1
  | none, none =>
    if a.price ≠ b.price then ((a.price - b.price : Int) : ℚ)
    else ciCompare a.variant_value.data b.variant_value.data

/-- The parse function the comparator of `sortVariants` picks for the
PAIR `a, b`: `isWeightVariant = a.variant_type === 'weight' ||
b.variant_type === 'weight'` (per-pair, not per-list). -/
def pairParse (a b : Variant) : List Char → Option ℚ :=
  if a.variant_type = VariantType.weight ∨ b.variant_type = VariantType.weight then
    parseWeightInGrams
  else parseNumericValue

/-- The `sortVariants` comparator of `src/pages/Index.tsx` (lines 60-96),
identical in `src/components/ProductDetailDialog.tsx` (lines 66-99). -/
def variantCmp (a b : Variant) : ℚ := cmpWithParse (pairParse a b) a b

/-- The parse function picked per pair by `src/pages/AdminDashboard.tsx`
`sortVariants` (lines 119-155): same weight branch, but the admin page's
own `parseNumericValue`. -/
def pairParseAdmin (a b : Variant) : List Char → Option ℚ :=
  if a.variant_type = VariantType.weight ∨ b.variant_type = VariantType.weight then
    parseWeightInGrams
  else parseNumericValueAdmin

/-- The `sortVariants` comparator of `src/pages/AdminDashboard.tsx`. -/
def variantCmpAdmin (a b : Variant) : ℚ := cmpWithParse (pairParseAdmin a b) a b

/-- Insert `x` into `l` before the first `y` with `le x y` (stable
insertion). -/
def insertBy {α : Type} (le : α → α → Bool) (x : α) : List α → List α
  | [] => [x]
  | y :: ys => if le x y then x :: y :: ys else y :: insertBy le x ys

/-- Stable insertion sort. With `le a b := cmp a b ≤ 0` this computes the
unique stable sorted order that `Array.prototype.sort` produces whenever
the comparator is consistent. -/
def sortBy {α : Type} (le : α → α → Bool) : List α → List α
  | [] => []
  | x :: xs => insertBy le x (sortBy le xs)

/-- `sortVariants` of `src/pages/Index.tsx` /
`src/components/ProductDetailDialog.tsx`. -/
def sortVariants (l : List Variant) : List Variant :=
  sortBy (fun a b => decide (variantCmp a b ≤ 0)) l

/-- `sortVariants` of `src/pages/AdminDashboard.tsx`. -/
def sortVariantsAdmin (l : List Variant) : List Variant :=
  sortBy (fun a b => decide (variantCmpAdmin a b ≤ 0)) l

/-- Active-variant selection of `src/pages/Index.tsx` `getVariantsForItem`
(lines 349-358): the previously selected id if it still exists in the
sorted list, else the first sorted variant, else none.
`ProductDetailDialog`'s `activeVariant` computation (lines 112-120) has
the same meaning: `selectedVariantId ? (find ?? first) : first`. -/
def activeVariant (sel : Option Nat) (l : List Variant) : Option Variant :=
  let sorted := sortVariants l
  match sel with
  | some i =>
    match sorted.find? (fun v => v.id == i) with
    | some v => some v
    | none => sorted.head?
  | none => sorted.head?

/-! ## Database state and operations

PostgreSQL semantics captured by the embedding:
* Row-level security: all four tables have a `for select using (true)`
  policy, so every actor reads all rows.  The `for all using (is_admin())
  with check (is_admin())` policies mean: an INSERT by a non-admin raises
  an RLS violation (an error), while an UPDATE or DELETE by a non-admin is
  silently filtered to zero affected rows (no error, no change).
* A cascaded delete (`on delete cascade`) fires the child table's
  row-level BEFORE DELETE triggers, and each trigger's queries see the
  rows already deleted earlier in the same cascade.
* An error raised anywhere aborts the whole statement's transaction
  (modelled by `Except.error`; the state is unchanged).
-/

/-- A `category` row (`description` omitted; no claim concerns it). -/
structure CategoryRow where
  id : Nat
  name : String
deriving DecidableEq

/-- A `product` row. -/
structure ProductRow where
  id : Nat
  name : String
  description : Option String
  category : Option String
  is_visible : Bool
deriving DecidableEq

/-- A `store_status` row; `updated_at` is a `Nat` clock value. -/
structure StatusRow where
  id : Nat
  is_open : Bool
  updated_at : Nat
deriving DecidableEq

/-- The database state. `skuCounter` is the last value handed out by
`sku_sequence` (0 before the first call); `nextId` generates fresh row
ids (models `gen_random_uuid()`). -/
structure State where
  categories : List CategoryRow
  products : List ProductRow
  variants : List Variant
  statusRows : List StatusRow
  admins : List Nat
  skuCounter : Nat
  nextId : Nat
deriving DecidableEq

/-- Error kinds surfaced by the data layer. -/
inductive DbError
  | notAuthorized
  | invariantViolation
  | uniquenessViolation
  | referentialViolation
deriving DecidableEq

/-- `public.is_admin()`: membership in `admin_users`. -/
def isAdmin (s : State) (actor : Nat) : Bool := s.admins.contains actor

/-- `nextval('public.sku_sequence')` followed by formatting: returns the
SKU string and the advanced state. -/
def generateSkuOp (s : State) : String × State :=
  (genSku (s.skuCounter + 1), { s with skuCounter := s.skuCounter + 1 })

/-- Variants of product `pid` (the `SELECT COUNT(*)` of
`prevent_last_variant_delete`, and the read model of a product's
variant list). -/
def variantsOf (s : State) (pid : Nat) : List Variant :=
  s.variants.filter (fun v => v.product_id == pid)

/-- `SELECT COUNT(*) FROM product_variants WHERE product_id = pid`. -/
def countVariants (s : State) (pid : Nat) : Nat := (variantsOf s pid).length

/-- Payload of a product insert (`InventoryForm` fields used by the
claims). -/
structure ProductPayload where
  name : String
  description : Option String
  category : Option String
  is_visible : Bool

/-- Trigger `nullify_empty_category_name` (BEFORE INSERT OR UPDATE ON
product): an empty-string category becomes NULL. -/
def nullifyEmptyCategory (c : Option String) : Option String :=
  if c = some "" then none else c

/-- `createProduct`: INSERT INTO product, then the AFTER INSERT trigger
`create_default_variant` inserts one variant
`(product_id = NEW.id, sku = generate_sku(), 'pcs', 'default', 0, 0)`.
The insert of the default variant is subject to the `sku` UNIQUE
constraint and the `(product_id, variant_type, variant_value)` UNIQUE
constraint; the product insert is subject to the FK
`category references category(name)`.  A non-admin INSERT violates the
`with check (is_admin())` RLS policy. -/
def createProduct (actor : Nat) (p : ProductPayload) (s : State) :
    Except DbError (State × ProductRow) :=
  if isAdmin s actor = false then .error .notAuthorized
  else
    let cat := nullifyEmptyCategory p.category
    if cat.any (fun c => !(s.categories.any (fun k => k.name == c))) then
      .error .referentialViolation
    else
      let pid := s.nextId
      let row : ProductRow :=
        { id := pid, name := p.name, description := p.description,
          category := cat, is_visible := p.is_visible }
      let sku := genSku (s.skuCounter + 1)
      if s.variants.any (fun v => v.sku == sku) then .error .uniquenessViolation
      else if s.variants.any (fun v =>
          v.product_id == pid && v.variant_type == VariantType.pcs &&
          v.variant_value == "default") then .error .uniquenessViolation
      else
        .ok ({ s with
                products := s.products ++ [row],
                variants := s.variants ++
                  [{ id := s.nextId + 1, product_id := pid, sku := sku,
                     variant_type := VariantType.pcs, variant_value := "default",
                     price := 0, quantity := 0 }],
                skuCounter := s.skuCounter + 1,
                nextId := s.nextId + 2 }, row)

/-- Remove the variant row(s) with the given id. -/
def eraseVariant (s : State) (vid : Nat) : State :=
  { s with variants := s.variants.filter (fun w => !(w.id == vid)) }

/-- `deleteVariant` (`handleVariantDelete`:
`from('product_variants').delete().eq('id', vid)`).
Non-admin: RLS hides every row, so the DELETE affects nothing and
reports success.  Admin: the BEFORE DELETE trigger
`prevent_last_variant_delete` raises when the variant's product has
`COUNT(*) <= 1` variants left. -/
def deleteVariant (actor : Nat) (vid : Nat) (s : State) : Except DbError State :=
  if isAdmin s actor = false then .ok s
  else
    match s.variants.find? (fun v => v.id == vid) with
    | none => .ok s
    | some v =>
      if countVariants s v.product_id ≤ 1 then .error .invariantViolation
      else .ok (eraseVariant s vid)

/-- One cascaded child delete per recursion step: for each variant id, the
BEFORE DELETE trigger `prevent_last_variant_delete` runs against the
current state (seeing the rows already deleted by this same cascade),
then the row is removed. -/
def cascadeDeleteVariants : List Nat → State → Except DbError State
  | [], s => .ok s
  | vid :: rest, s =>
    match s.variants.find? (fun v => v.id == vid) with
    | none => cascadeDeleteVariants rest s
    | some v =>
      if countVariants s v.product_id ≤ 1 then .error .invariantViolation
      else cascadeDeleteVariants rest (eraseVariant s vid)

/-- `deleteProduct` (`handleDelete`: `from('product').delete().eq('id', pid)`).
Non-admin: RLS filters the row out, 0 rows affected, success.
Admin: the product row is deleted and `on delete cascade` deletes every
variant with `product_id = pid`, firing `prevent_last_variant_delete`
per row; any raise aborts the whole delete (state unchanged). -/
def deleteProduct (actor : Nat) (pid : Nat) (s : State) : Except DbError State :=
  if isAdmin s actor = false then .ok s
  else if s.products.any (fun p => p.id == pid) then
    cascadeDeleteVariants ((variantsOf s pid).map (fun v => v.id))
      { s with products := s.products.filter (fun p => !(p.id == pid)) }
  else .ok s

/-- Payload of a variant insert. -/
structure VariantPayload where
  product_id : Nat
  sku : Option String
  variant_type : VariantType
  variant_value : String
  price : Int
  quantity : Int

/-- `createVariant`: INSERT INTO product_variants; the SKU is generated
when the caller supplies none; FK on `product_id` and both UNIQUE
constraints apply.  Non-admin INSERT violates RLS `with check`. -/
def createVariant (actor : Nat) (q : VariantPayload) (s : State) :
    Except DbError (State × Variant) :=
  if isAdmin s actor = false then .error .notAuthorized
  else if !(s.products.any (fun p => p.id == q.product_id)) then
    .error .referentialViolation
  else
    let gen := q.sku.isNone
    let sku := match q.sku with
      | some k => k
      | none => genSku (s.skuCounter + 1)
    if s.variants.any (fun v => v.sku == sku) then .error .uniquenessViolation
    else if s.variants.any (fun v =>
        v.product_id == q.product_id && v.variant_type == q.variant_type &&
        v.variant_value == q.variant_value) then .error .uniquenessViolation
    else
      let row : Variant :=
        { id := s.nextId, product_id := q.product_id, sku := sku,
          variant_type := q.variant_type, variant_value := q.variant_value,
          price := q.price, quantity := q.quantity }
      .ok ({ s with
              variants := s.variants ++ [row],
              skuCounter := if gen then s.skuCounter + 1 else s.skuCounter,
              nextId := s.nextId + 1 }, row)

/-- `handleQuantityUpdate` (variant path): UPDATE product_variants SET
quantity WHERE id = vid.  Non-admin: RLS `using` hides all rows, 0 rows
updated, success. -/
def updateVariantQuantity (actor : Nat) (vid : Nat) (qty : Int) (s : State) :
    Except DbError State :=
  if isAdmin s actor = false then .ok s
  else
    .ok { s with variants := s.variants.map (fun v =>
            if v.id == vid then { v with quantity := qty } else v) }

/-- `createCategory`: INSERT INTO category (name UNIQUE).  Non-admin
INSERT violates RLS `with check`. -/
def createCategory (actor : Nat) (name : String) (s : State) :
    Except DbError (State × CategoryRow) :=
  if isAdmin s actor = false then .error .notAuthorized
  else if s.categories.any (fun k => k.name == name) then .error .uniquenessViolation
  else
    let row : CategoryRow := { id := s.nextId, name := name }
    .ok ({ s with categories := s.categories ++ [row], nextId := s.nextId + 1 }, row)

/-- `handleRemoveCategory`: DELETE FROM category WHERE id = cid.  The FK
`product.category references category(name) on delete set null` nulls
the `category` of every product referencing the deleted name.
Non-admin: RLS filters, 0 rows, success. -/
def deleteCategory (actor : Nat) (cid : Nat) (s : State) : Except DbError State :=
  if isAdmin s actor = false then .ok s
  else
    match s.categories.find? (fun k => k.id == cid) with
    | none => .ok s
    | some k =>
      .ok { s with
              categories := s.categories.filter (fun j => !(j.id == cid)),
              products := s.products.map (fun p =>
                if p.category == some k.name then { p with category := none } else p) }

/-- `setStoreStatus` insert path (`handleStoreStatusToggle` /
`fetchStoreStatus` when no row exists): INSERT INTO store_status.
`updated_at` takes its default `now()`, passed here as `t`.
Non-admin INSERT violates RLS `with check`. -/
def insertStoreStatus (actor : Nat) (isOpen : Bool) (t : Nat) (s : State) :
    Except DbError (State × StatusRow) :=
  if isAdmin s actor = false then .error .notAuthorized
  else
    let row : StatusRow := { id := s.nextId, is_open := isOpen, updated_at := t }
    .ok ({ s with statusRows := s.statusRows ++ [row], nextId := s.nextId + 1 }, row)

/-- `setStoreStatus` update path: UPDATE store_status SET is_open WHERE
id = sid (the code does not touch `updated_at`, and `store_status` has no
timestamp trigger).  Non-admin: RLS filters, 0 rows, success. -/
def updateStoreStatus (actor : Nat) (sid : Nat) (isOpen : Bool) (s : State) :
    Except DbError State :=
  if isAdmin s actor = false then .ok s
  else
    .ok { s with statusRows := s.statusRows.map (fun r =>
            if r.id == sid then { r with is_open := isOpen } else r) }

/-- SELECT on `product`: policy `using (true)` - every actor sees every
row; the actor argument is deliberately unused by the policy. -/
def selectProducts (_actor : Nat) (s : State) : List ProductRow := s.products

/-! ## Order-theoretic properties of the comparator -/

theorem ordToQ_nonpos_iff (o : Ordering) : ordToQ o ≤ 0 ↔ o ≠ .gt := by
  cases o <;> simp [ordToQ]

theorem ordToQ_eq_zero_iff (o : Ordering) : ordToQ o = 0 ↔ o = .eq := by
  cases o <;> simp [ordToQ]

theorem lexCmp_eq_eq_iff : ∀ x y : List Char, lexCmp x y = .eq ↔ x = y := by
  intro x
  induction x with
  | nil => intro y; cases y <;> simp [lexCmp]
  | cons c cs ih =>
    intro y
    cases y with
    | nil => simp [lexCmp]
    | cons d ds =>
      show (if c < d then Ordering.lt else if d < c then Ordering.gt else lexCmp cs ds) =
          Ordering.eq ↔ c :: cs = d :: ds
      rcases lt_trichotomy c d with h | h | h
      · rw [if_pos h]
        simp [ne_of_lt h]
      · rw [if_neg (by simp [h]), if_neg (by simp [h])]
        simp [h, ih ds]
      · rw [if_neg (not_lt_of_gt h), if_pos h]
        simp [(ne_of_lt h).symm]

theorem lexCmp_ne_gt_trans : ∀ x y z : List Char,
    lexCmp x y ≠ .gt → lexCmp y z ≠ .gt → lexCmp x z ≠ .gt := by
  intro x
  induction x with
  | nil => intro y z _ _; cases z <;> simp [lexCmp]
  | cons c cs ih =>
    intro y z h1 h2
    cases y with
    | nil => simp [lexCmp] at h1
    | cons d ds =>
      cases z with
      | nil => simp [lexCmp] at h2
      | cons e es =>
        have h1' : (if c < d then Ordering.lt else if d < c then Ordering.gt
            else lexCmp cs ds) ≠ Ordering.gt := h1
        have h2' : (if d < e then Ordering.lt else if e < d then Ordering.gt
            else lexCmp ds es) ≠ Ordering.gt := h2
        show (if c < e then Ordering.lt else if e < c then Ordering.gt
            else lexCmp cs es) ≠ Ordering.gt
        rcases lt_trichotomy c d with hcd | hcd | hcd
        · rcases lt_trichotomy d e with hde | hde | hde
          · have : c < e := lt_trans hcd hde
            simp [this]
          · have : c < e := hde ▸ hcd
            simp [this]
          · rw [if_neg (not_lt_of_gt hde), if_pos hde] at h2'
            exact absurd rfl h2'
        · subst hcd
          rcases lt_trichotomy c e with hce | hce | hce
          · simp [hce]
          · subst hce
            rw [if_neg (lt_irrefl c), if_neg (lt_irrefl c)] at h1' h2' ⊢
            exact ih ds es h1' h2'
          · rw [if_neg (not_lt_of_gt hce), if_pos hce] at h2'
            exact absurd rfl h2'
        · rw [if_neg (not_lt_of_gt hcd), if_pos hcd] at h1'
          exact absurd rfl h1'

theorem ciCompare_nonpos_trans (x y z : List Char)
    (h1 : ciCompare x y ≤ 0) (h2 : ciCompare y z ≤ 0) : ciCompare x z ≤ 0 := by
  unfold ciCompare at *
  rw [ordToQ_nonpos_iff] at h1 h2 ⊢
  exact lexCmp_ne_gt_trans _ _ _ h1 h2

theorem ciCompare_eq_zero (x y : List Char) (h : ciCompare x y = 0) :
    toLowerL x = toLowerL y := by
  unfold ciCompare at h
  rw [ordToQ_eq_zero_iff, lexCmp_eq_eq_iff] at h
  exact h

theorem qsub_nonpos_iff (u v : ℚ) : qsub u v ≤ 0 ↔ u ≤ v := by
  rw [qsub_eq]
  exact sub_nonpos

/-- Transitivity of the comparator `≤ 0` relation, for any FIXED parse
function `p` applied to both sides of every comparison. -/
theorem cmpWithParse_le_trans (p : List Char → Option ℚ) (a b c : Variant)
    (hab : cmpWithParse p a b ≤ 0) (hbc : cmpWithParse p b c ≤ 0) :
    cmpWithParse p a c ≤ 0 := by
  unfold cmpWithParse at hab hbc ⊢
  rcases hpa : p a.variant_value.data with _ | x <;>
    rcases hpb : p b.variant_value.data with _ | y <;>
      rcases hpc : p c.variant_value.data with _ | z <;>
        simp only [hpa, hpb, hpc] at hab hbc ⊢
  all_goals try { exfalso; linarith }
  all_goals try { show (-1 : ℚ) ≤ 0; norm_num }
  · -- none, none, none: ascending by price, ties by localeCompare
    by_cases hpq : a.price = b.price
    · rw [if_neg (by simpa using hpq)] at hab
      by_cases hqr : b.price = c.price
      · rw [if_neg (by simpa using hqr)] at hbc
        have hac : a.price = c.price := hpq.trans hqr
        rw [if_neg (by simpa using hac)]
        exact ciCompare_nonpos_trans _ _ _ hab hbc
      · rw [if_pos hqr] at hbc
        have hbc' : b.price ≤ c.price := by
          have : ((b.price - c.price : Int) : ℚ) ≤ 0 := hbc
          rw [Int.cast_nonpos] at this
          omega
        have hlt : b.price < c.price := lt_of_le_of_ne hbc' hqr
        have hac : a.price ≠ c.price := by omega
        rw [if_pos hac]
        have : a.price - c.price ≤ 0 := by omega
        exact_mod_cast Int.cast_nonpos.mpr this
    · rw [if_pos hpq] at hab
      have hab' : a.price ≤ b.price := by
        have : ((a.price - b.price : Int) : ℚ) ≤ 0 := hab
        rw [Int.cast_nonpos] at this
        omega
      have hltab : a.price < b.price := lt_of_le_of_ne hab' hpq
      have hbc' : b.price ≤ c.price := by
        by_cases hqr : b.price = c.price
        · omega
        · rw [if_pos hqr] at hbc
          have : ((b.price - c.price : Int) : ℚ) ≤ 0 := hbc
          rw [Int.cast_nonpos] at this
          omega
      have hac : a.price ≠ c.price := by omega
      rw [if_pos hac]
      have : a.price - c.price ≤ 0 := by omega
      exact_mod_cast Int.cast_nonpos.mpr this
  · -- some, some, some: ascending by parsed value, ties by localeCompare
    have hxy : x ≤ y := by
      by_cases h : x = y
      · exact le_of_eq h
      · rw [if_pos h, qsub_nonpos_iff] at hab
        exact hab
    have hyz : y ≤ z := by
      by_cases h : y = z
      · exact le_of_eq h
      · rw [if_pos h, qsub_nonpos_iff] at hbc
        exact hbc
    by_cases hxz : x = z
    · have hxy' : x = y := le_antisymm hxy (hxz ▸ hyz)
      have hyz' : y = z := hxy' ▸ hxz
      rw [if_neg (by simpa using hxz)]
      rw [if_neg (by simpa using hxy')] at hab
      rw [if_neg (by simpa using hyz')] at hbc
      exact ciCompare_nonpos_trans _ _ _ hab hbc
    · rw [if_pos hxz, qsub_nonpos_iff]
      exact le_trans hxy hyz

/-- When the comparator returns 0 (for a fixed parse function), the two
variant values are case-insensitively identical. -/
theorem cmpWithParse_eq_zero (p : List Char → Option ℚ) (a b : Variant)
    (h : cmpWithParse p a b = 0) :
    toLowerL a.variant_value.data = toLowerL b.variant_value.data := by
  unfold cmpWithParse at h
  rcases hpa : p a.variant_value.data with _ | x <;>
    rcases hpb : p b.variant_value.data with _ | y <;>
      simp only [hpa, hpb] at h
  · by_cases hpq : a.price = b.price
    · rw [if_neg (by simpa using hpq)] at h
      exact ciCompare_eq_zero _ _ h
    · rw [if_pos hpq] at h
      have : a.price - b.price = 0 := by exact_mod_cast h
      omega
  · exact absurd h (by norm_num)
  · exact absurd h (by norm_num)
  · by_cases hxy : x = y
    · rw [if_neg (by simpa using hxy)] at h
      exact ciCompare_eq_zero _ _ h
    · rw [if_pos hxy, qsub_eq] at h
      exact absurd (sub_eq_zero.mp h) hxy

/-! ## Sort congruence (parse mode chosen per pair vs per set) -/

theorem insertBy_congr {α : Type} (f g : α → α → Bool) (x : α) :
    ∀ l : List α, (∀ y ∈ l, f x y = g x y) → insertBy f x l = insertBy g x l := by
  intro l
  induction l with
  | nil => intro _; rfl
  | cons y ys ih =>
    intro h
    unfold insertBy
    rw [h y (List.mem_cons_self y ys)]
    cases hg : g x y
    · simp only [hg, Bool.false_eq_true, if_false]
      rw [ih (fun z hz => h z (List.mem_cons_of_mem y hz))]
    · simp only [hg, if_true]

theorem mem_of_mem_insertBy {α : Type} (f : α → α → Bool) (x : α) :
    ∀ (l : List α) (z : α), z ∈ insertBy f x l → z = x ∨ z ∈ l := by
  intro l
  induction l with
  | nil =>
    intro z hz
    simp [insertBy] at hz
    exact Or.inl hz
  | cons y ys ih =>
    intro z hz
    unfold insertBy at hz
    by_cases hf : f x y = true
    · rw [if_pos hf] at hz
      rcases List.mem_cons.mp hz with rfl | hz2
      · exact Or.inl rfl
      · exact Or.inr hz2
    · rw [if_neg hf] at hz
      rcases List.mem_cons.mp hz with rfl | hz2
      · exact Or.inr (List.mem_cons_self z ys)
      · rcases ih z hz2 with h | h
        · exact Or.inl h
        · exact Or.inr (List.mem_cons_of_mem y h)

theorem mem_of_mem_sortBy {α : Type} (f : α → α → Bool) :
    ∀ (l : List α) (z : α), z ∈ sortBy f l → z ∈ l := by
  intro l
  induction l with
  | nil => intro z hz; simp [sortBy] at hz
  | cons x xs ih =>
    intro z hz
    unfold sortBy at hz
    rcases mem_of_mem_insertBy _ _ _ _ hz with rfl | hz2
    · exact List.mem_cons_self z xs
    · exact List.mem_cons_of_mem x (ih z hz2)

theorem sortBy_congr {α : Type} (f g : α → α → Bool) :
    ∀ l : List α, (∀ a ∈ l, ∀ b ∈ l, f a b = g a b) → sortBy f l = sortBy g l := by
  intro l
  induction l with
  | nil => intro _; rfl
  | cons x xs ih =>
    intro h
    unfold sortBy
    rw [ih (fun a ha b hb =>
      h a (List.mem_cons_of_mem x ha) b (List.mem_cons_of_mem x hb))]
    apply insertBy_congr
    intro y hy
    exact h x (List.mem_cons_self x xs) y
      (List.mem_cons_of_mem x (mem_of_mem_sortBy g xs y hy))

/-! ## Lemmas about variant deletion -/

/-- Variant ids are pairwise distinct (true of any real table keyed by
`id`); hypothesis of the deletion lemmas. -/
def IdsNodup (s : State) : Prop := (s.variants.map (fun w => w.id)).Nodup

instance decidableIdsNodup (s : State) : Decidable (IdsNodup s) := by
  unfold IdsNodup
  exact List.nodupDecidable _

theorem find_variant_of_nodup (l : List Variant) (v : Variant)
    (hn : (l.map (fun w => w.id)).Nodup) (hv : v ∈ l) :
    l.find? (fun w => w.id == v.id) = some v := by
  induction l with
  | nil => cases hv
  | cons h t ih =>
    rcases List.mem_cons.mp hv with rfl | hvt
    · simp [List.find?]
    · have hn' := hn
      rw [List.map_cons, List.nodup_cons] at hn'
      have hne : h.id ≠ v.id := by
        intro he
        exact hn'.1 (he ▸ List.mem_map_of_mem (fun w => w.id) hvt)
      have : (h.id == v.id) = false := beq_false_of_ne hne
      simp [List.find?, this, ih hn'.2 hvt]

theorem filter_ne_id_eq_self (l : List Variant) (vid : Nat)
    (h : ∀ w ∈ l, w.id ≠ vid) : l.filter (fun w => !(w.id == vid)) = l := by
  apply List.filter_eq_self.mpr
  intro w hw
  simpa using h w hw

theorem count_pos_of_mem (l : List Variant) (v : Variant) (pid : Nat)
    (hv : v ∈ l) (hp : v.product_id = pid) :
    1 ≤ (l.filter (fun w => w.product_id == pid)).length := by
  have : v ∈ l.filter (fun w => w.product_id == pid) :=
    List.mem_filter.mpr ⟨hv, by simp [hp]⟩
  exact List.length_pos_of_mem this

theorem length_filter_erase (l : List Variant) (v : Variant) (pid : Nat)
    (hn : (l.map (fun w => w.id)).Nodup) (hv : v ∈ l) :
    ((l.filter (fun w => !(w.id == v.id))).filter (fun w => w.product_id == pid)).length =
      (l.filter (fun w => w.product_id == pid)).length -
        (if v.product_id = pid then 1 else 0) := by
  induction l with
  | nil => cases hv
  | cons h t ih =>
    have hn' := hn
    rw [List.map_cons, List.nodup_cons] at hn'
    rcases List.mem_cons.mp hv with rfl | hvt
    · have hnone : ∀ w ∈ t, w.id ≠ v.id := by
        intro w hw he
        exact hn'.1 (he ▸ List.mem_map_of_mem (fun x => x.id) hw)
      rw [List.filter_cons]
      simp only [beq_self_eq_true, Bool.not_true, if_false]
      rw [filter_ne_id_eq_self t v.id hnone, List.filter_cons]
      by_cases hp : v.product_id = pid
      · simp [hp]
      · simp [hp, beq_false_of_ne hp]
    · have hne : h.id ≠ v.id := by
        intro he
        exact hn'.1 (he ▸ List.mem_map_of_mem (fun w => w.id) hvt)
      have hcount := count_pos_of_mem t v pid hvt
      rw [List.filter_cons]
      simp only [beq_false_of_ne hne, Bool.not_false, if_true]
      rw [List.filter_cons, List.filter_cons]
      by_cases hp : h.product_id = pid
      · simp only [hp, beq_self_eq_true, if_true, List.length_cons]
        rw [ih hn'.2 hvt]
        by_cases hvp : v.product_id = pid
        · have := hcount hvp
          simp only [hvp, if_true]
          omega
        · simp [hvp]
      · simp only [beq_false_of_ne hp, if_false]
        exact ih hn'.2 hvt

theorem countVariants_erase (s : State) (v : Variant) (pid : Nat)
    (hn : IdsNodup s) (hv : v ∈ s.variants) :
    countVariants (eraseVariant s v.id) pid =
      countVariants s pid - (if v.product_id = pid then 1 else 0) :=
  length_filter_erase s.variants v pid hn hv

theorem idsNodup_erase (s : State) (vid : Nat) (hn : IdsNodup s) :
    IdsNodup (eraseVariant s vid) := by
  unfold IdsNodup at *
  exact List.Nodup.sublist (List.Sublist.map _ (List.filter_sublist _)) hn

/-- The cascade of `deleteProduct` always raises: once only one variant of
`pid` remains, `prevent_last_variant_delete` counts `1 ≤ 1` and errors. -/
theorem cascadeDeleteVariants_error (pid : Nat) :
    ∀ (vids : List Nat) (s : State), IdsNodup s →
    (variantsOf s pid).map (fun w => w.id) = vids → vids ≠ [] →
    cascadeDeleteVariants vids s = .error .invariantViolation := by
  intro vids
  induction vids with
  | nil => intro s _ _ hne; exact absurd rfl hne
  | cons vid rest ih =>
    intro s hn hmap _
    obtain ⟨f, fs, hcons⟩ : ∃ f fs, variantsOf s pid = f :: fs := by
      match hfo : variantsOf s pid with
      | [] => rw [hfo] at hmap; simp at hmap
      | f :: fs => exact ⟨f, fs, rfl⟩
    rw [hcons] at hmap
    simp only [List.map_cons, List.cons.injEq] at hmap
    obtain ⟨hfid, hrest⟩ := hmap
    have hfmem : f ∈ s.variants := List.mem_of_mem_filter (hcons ▸ List.mem_cons_self f fs)
    have hfpid : f.product_id = pid := by
      have : f ∈ variantsOf s pid := hcons ▸ List.mem_cons_self f fs
      have := List.of_mem_filter this
      simpa using this
    have hfind : s.variants.find? (fun w => w.id == vid) = some f := by
      rw [← hfid]
      exact find_variant_of_nodup s.variants f hn hfmem
    have hcount : countVariants s pid = fs.length + 1 := by
      unfold countVariants
      rw [show variantsOf s pid = f :: fs from hcons]
      simp
    have hnd : ((f :: fs).map (fun w => w.id)).Nodup := by
      have hsub : List.Sublist ((variantsOf s pid).map (fun w => w.id))
          (s.variants.map (fun w => w.id)) :=
        List.Sublist.map _ (List.filter_sublist _)
      exact List.Nodup.sublist (hcons ▸ hsub) hn
    rw [List.map_cons, List.nodup_cons, hfid] at hnd
    have hnofs : ∀ w ∈ fs, w.id ≠ vid := by
      intro w hw he
      exact hnd.1 (he ▸ List.mem_map_of_mem (fun x => x.id) hw)
    show cascadeDeleteVariants (vid :: rest) s = .error .invariantViolation
    unfold cascadeDeleteVariants
    rw [hfind]
    show (if countVariants s f.product_id ≤ 1 then
            (Except.error DbError.invariantViolation : Except DbError State)
          else cascadeDeleteVariants rest (eraseVariant s vid)) =
        Except.error DbError.invariantViolation
    rcases fs with _ | ⟨g, gs⟩
    · rw [if_pos (by rw [hfpid, hcount]; simp)]
    · rw [if_neg (by rw [hfpid, hcount]; simp)]
      apply ih (eraseVariant s vid) (idsNodup_erase s vid hn)
      · have hvo : variantsOf (eraseVariant s vid) pid = g :: gs := by
          show (s.variants.filter (fun w => !(w.id == vid))).filter
              (fun w => w.product_id == pid) = g :: gs
          have hswap : (s.variants.filter (fun w => !(w.id == vid))).filter
              (fun w => w.product_id == pid) =
              (s.variants.filter (fun w => w.product_id == pid)).filter
                (fun w => !(w.id == vid)) := by
            rw [List.filter_filter, List.filter_filter]
            congr 1
            funext w
            rw [Bool.and_comm]
          rw [hswap]
          rw [show s.variants.filter (fun w => w.product_id == pid) = f :: g :: gs
            from hcons]
          rw [List.filter_cons]
          simp only [hfid, beq_self_eq_true, Bool.not_true, if_false]
          exact filter_ne_id_eq_self (g :: gs) vid hnofs
        rw [hvo, hrest]
      · rw [← hrest]; simp

/-! ## Store status read (public dashboard) -/

/-- `ORDER BY updated_at DESC LIMIT 1` of the store-status query: a row
with maximal `updated_at` (the earliest such row on ties, which SQL
leaves unspecified). -/
def topStatus : List StatusRow → Option StatusRow
  | [] => none
  | r :: rs =>
    match topStatus rs with
    | none => some r
    | some m => if r.updated_at < m.updated_at then some m else some r

/-- `fetchStoreStatus` of `src/pages/Index.tsx` (lines 124-151): the
public page's effective status.  `none` models a failed query (the catch
branch sets `true`); an empty result list also yields `true`; otherwise
the `is_open` of the single returned row. -/
def effectiveStoreStatus : Option (List StatusRow) → Bool
  | none => true
  | some rows =>
    match topStatus rows with
    | none => true
    | some r => r.is_open

/-! ## Substring lemmas (the dead `mg` branch) -/

theorem containsSub_of_startsWithL (l p : List Char) (h : startsWithL l p = true) :
    containsSub l p = true := by
  cases l with
  | nil =>
    cases p with
    | nil => rfl
    | cons d ds => simp [startsWithL] at h
  | cons c cs =>
    unfold containsSub
    rw [h]
    rfl

theorem contains_g_of_contains_mg (l : List Char)
    (h : containsSub l ['m', 'g'] = true) : containsSub l ['g'] = true := by
  induction l with
  | nil => simp [containsSub, List.isEmpty] at h
  | cons c cs ih =>
    unfold containsSub at h ⊢
    rw [Bool.or_eq_true] at h ⊢
    rcases h with h | h
    · unfold startsWithL at h
      rw [Bool.and_eq_true] at h
      right
      cases cs with
      | nil => simp [startsWithL] at h
      | cons c2 cs2 =>
        apply containsSub_of_startsWithL
        exact h.2
    · exact Or.inr (ih h)

/-! ## ProductDetailDialog's copy of the resolver -/

/-- `parseNumericValue` of `src/components/ProductDetailDialog.tsx`
(lines 28-36).  The source text is character-identical to the Index.tsx
function; it is embedded separately so the extensional-equality claim
about the two copies can be stated. -/
def parseNumericValueDialog : List Char → Option ℚ
  | [] => none
  | c :: cs =>
    if isDigitOrDot c then parseFloatDD (c :: cs.takeWhile isDigitOrDot)
    else parseNumericValueDialog cs

/-- Pair parse-mode choice of the dialog's `sortVariants` (lines 66-79). -/
def pairParseDialog (a b : Variant) : List Char → Option ℚ :=
  if a.variant_type = VariantType.weight ∨ b.variant_type = VariantType.weight then
    parseWeightInGrams
  else parseNumericValueDialog

/-- The `sortVariants` comparator of `ProductDetailDialog.tsx`. -/
def variantCmpDialog (a b : Variant) : ℚ := cmpWithParse (pairParseDialog a b) a b

/-- `sortVariants` of `ProductDetailDialog.tsx`. -/
def sortVariantsDialog (l : List Variant) : List Variant :=
  sortBy (fun a b => decide (variantCmpDialog a b ≤ 0)) l

/-- Active-variant selection of `ProductDetailDialog.tsx` (lines 112-120):
`selectedVariantId ? (sorted.find(id) || sorted[0] || null) : (sorted[0] || null)`. -/
def activeVariantDialog (sel : Option Nat) (l : List Variant) : Option Variant :=
  let sorted := sortVariantsDialog l
  match sel with
  | some i =>
    match sorted.find? (fun v => v.id == i) with
    | some v => some v
    | none => sorted.head?
  | none => sorted.head?

theorem parseNumericValueDialog_eq :
    ∀ l : List Char, parseNumericValueDialog l = parseNumericValue l := by
  intro l
  induction l with
  | nil => rfl
  | cons c cs ih =>
    unfold parseNumericValueDialog parseNumericValue
    rw [ih]

theorem variantCmpDialog_eq (a b : Variant) : variantCmpDialog a b = variantCmp a b := by
  unfold variantCmpDialog variantCmp pairParseDialog pairParse
  rw [funext parseNumericValueDialog_eq]

theorem sortVariantsDialog_eq (l : List Variant) : sortVariantsDialog l = sortVariants l := by
  unfold sortVariantsDialog sortVariants
  apply sortBy_congr
  intro a _ b _
  rw [variantCmpDialog_eq]

theorem activeVariantDialog_eq (sel : Option Nat) (l : List Variant) :
    activeVariantDialog sel l = activeVariant sel l := by
  unfold activeVariantDialog activeVariant
  rw [sortVariantsDialog_eq]

/-! ## Store status: the top row is a maximum -/

theorem topStatus_cons (x : StatusRow) (xs : List StatusRow) :
    topStatus (x :: xs) =
      match topStatus xs with
      | none => some x
      | some m => if x.updated_at < m.updated_at then some m else some x := rfl

theorem topStatus_isSome (x : StatusRow) (xs : List StatusRow) :
    ∃ r, topStatus (x :: xs) = some r := by
  rw [topStatus_cons]
  rcases topStatus xs with _ | m
  · exact ⟨x, rfl⟩
  · by_cases hlt : x.updated_at < m.updated_at
    · exact ⟨m, by simp [hlt]⟩
    · exact ⟨x, by simp [hlt]⟩

theorem topStatus_eq_none (xs : List StatusRow) (h : topStatus xs = none) : xs = [] := by
  cases xs with
  | nil => rfl
  | cons y ys =>
    obtain ⟨r, hr⟩ := topStatus_isSome y ys
    rw [h] at hr
    cases hr

theorem topStatus_spec : ∀ (rows : List StatusRow) (r : StatusRow),
    topStatus rows = some r → r ∈ rows ∧ ∀ r2 ∈ rows, r2.updated_at ≤ r.updated_at := by
  intro rows
  induction rows with
  | nil => intro r h; simp [topStatus] at h
  | cons x xs ih =>
    intro r h
    rw [topStatus_cons] at h
    rcases hx : topStatus xs with _ | m
    · rw [hx] at h
      have h2 : some x = some r := h
      injection h2 with hxr
      subst hxr
      have hempty : xs = [] := topStatus_eq_none xs hx
      subst hempty
      refine ⟨List.mem_cons_self x [], ?_⟩
      intro r2 h2
      rcases List.mem_cons.mp h2 with rfl | h2
      · exact le_refl _
      · cases h2
    · rw [hx] at h
      have h2 : (if x.updated_at < m.updated_at then some m else some x) = some r := h
      obtain ⟨hm, hmax⟩ := ih m hx
      by_cases hlt : x.updated_at < m.updated_at
      · rw [if_pos hlt] at h2
        injection h2 with hmr
        subst hmr
        refine ⟨List.mem_cons_of_mem x hm, ?_⟩
        intro r2 h2
        rcases List.mem_cons.mp h2 with rfl | h2
        · exact le_of_lt hlt
        · exact hmax r2 h2
      · rw [if_neg hlt] at h2
        injection h2 with hxr
        subst hxr
        refine ⟨List.mem_cons_self x xs, ?_⟩
        intro r2 h2
        rcases List.mem_cons.mp h2 with rfl | h2
        · exact le_refl _
        · exact le_trans (hmax r2 h2) (not_lt.mp hlt)

/-! ## Definitions following the spec's words (for refinement claims) -/

/-- Modelled from the spec: "Determine if any variant in the set has
`variant_type == weight`; if so ... parse every variant's `variant_value`
using a weight-to-grams normalizer; otherwise parse every value as a
plain leading numeric magnitude" - the parse mode chosen once per LIST. -/
def setParse (l : List Variant) : List Char → Option ℚ :=
  if l.any (fun v => v.variant_type == VariantType.weight) then parseWeightInGrams
  else parseNumericValue

/-- Modelled from the spec: `sortVariants` with the per-set parse mode of
`setParse` (claim C7's reading), to be compared with the per-pair
`sortVariants` of the code. -/
def sortVariantsSpecSet (l : List Variant) : List Variant :=
  sortBy (fun a b => decide (cmpWithParse (setParse l) a b ≤ 0)) l

/-- Modelled from the amended C5: unit factor by substring match on the
lowercased value - `kg` gives 1000, otherwise bare `g` gives 1 (this case
includes every string containing `mg`), otherwise `lb`/`pound` gives
453.592, otherwise `oz`/`ounce` gives 28.3495, otherwise 1. -/
def specWeightFactor (lower : List Char) : ℚ :=
  if containsSub lower ['k', 'g'] then 1000
  else if containsSub lower ['g'] then 1
  else if containsSub lower ['l', 'b'] || containsSub lower ['p', 'o', 'u', 'n', 'd'] then
    (453592 : ℚ) / 1000
  else if containsSub lower ['o', 'z'] || containsSub lower ['o', 'u', 'n', 'c', 'e'] then
    (283495 : ℚ) / 10000
  else 1

/-! ## Concrete fixtures used by counterexamples and witnesses -/

/-- A weight-typed variant of product 1. -/
def wVar (i : Nat) (val : String) : Variant :=
  { id := i, product_id := 1, sku := "", variant_type := VariantType.weight,
    variant_value := val, price := 0, quantity := 0 }

/-- A pcs-typed variant of product 1. -/
def pVar (i : Nat) (val : String) : Variant :=
  { id := i, product_id := 1, sku := "", variant_type := VariantType.pcs,
    variant_value := val, price := 0, quantity := 0 }

/-- A size-typed variant of product 1 with a price. -/
def sVar (i : Nat) (val : String) (pr : Int) : Variant :=
  { id := i, product_id := 1, sku := "", variant_type := VariantType.size,
    variant_value := val, price := pr, quantity := 0 }

/-- Fixture state: admin 7; product 1 with its sole (default) variant 10;
product 2 with variants 20 and 21. -/
def fixState : State :=
  { categories := [],
    products := [{ id := 1, name := "A", description := none, category := none,
                   is_visible := true },
                 { id := 2, name := "B", description := none, category := none,
                   is_visible := true }],
    variants := [{ id := 10, product_id := 1, sku := "SF-0001",
                   variant_type := VariantType.pcs, variant_value := "default",
                   price := 0, quantity := 0 },
                 { id := 20, product_id := 2, sku := "SF-0002",
                   variant_type := VariantType.pcs, variant_value := "default",
                   price := 0, quantity := 0 },
                 { id := 21, product_id := 2, sku := "SF-0003",
                   variant_type := VariantType.weight, variant_value := "500g",
                   price := 5, quantity := 3 }],
    statusRows := [{ id := 30, is_open := true, updated_at := 4 }],
    admins := [7],
    skuCounter := 3,
    nextId := 100 }

/-- Fixture state for the SKU collision: the counter stands at 10233 and a
variant legitimately generated long ago carries `"SF-1023"`. -/
def collisionState : State :=
  { categories := [],
    products := [{ id := 1, name := "A", description := none, category := none,
                   is_visible := true }],
    variants := [{ id := 10, product_id := 1, sku := "SF-1023",
                   variant_type := VariantType.pcs, variant_value := "default",
                   price := 0, quantity := 0 }],
    statusRows := [],
    admins := [7],
    skuCounter := 10233,
    nextId := 100 }

/-- Every variant's SKU came from the generator at some counter value not
beyond the current one (true of states whose SKUs were all generated). -/
def CounterConsistent (s : State) : Prop :=
  ∀ v ∈ s.variants, ∃ k, k ≤ s.skuCounter ∧ v.sku = genSku k

/-- No existing variant row references the id about to be assigned
(true whenever `nextId` is fresh). -/
def FreshPid (s : State) : Prop := ∀ v ∈ s.variants, v.product_id ≠ s.nextId

/-! ## Claim C1 (code_bug) -/

/-- C1: the claim states that `deleteProduct(id)` always succeeds for a
product with at least one variant, cascading the deletion of its variants.
The code does the opposite: the cascade fires `prevent_last_variant_delete`
for every cascaded variant row, and at the last remaining variant the
count is `1 <= 1`, so the trigger raises and the whole delete fails.  This
theorem evaluates the code's behaviour: for EVERY product that has at
least one variant, `deleteProduct` errors with the invariant violation. -/
theorem C1_deleteProduct_always_blocked (s : State) (actor pid : Nat)
    (hadmin : isAdmin s actor = true) (hn : IdsNodup s)
    (hp : s.products.any (fun p => p.id == pid) = true)
    (hv : 1 ≤ countVariants s pid) :
    deleteProduct actor pid s = .error .invariantViolation := by
  unfold deleteProduct
  rw [if_neg (by simp [hadmin]), if_pos hp]
  refine cascadeDeleteVariants_error pid _ _ ?_ rfl ?_
  · exact hn
  intro hnil
  have hlen : (variantsOf s pid).length = 0 := by
    have := congrArg List.length hnil
    simpa using this
  unfold countVariants at hv
  omega

/-- C1 witness: the concrete fixture, deleting product 1 (which has its
sole default variant). -/
theorem C1_witness : deleteProduct 7 1 fixState = .error .invariantViolation :=
  C1_deleteProduct_always_blocked fixState 7 1 (by decide) (by decide) (by decide)
    (by decide)

/-! ## Claim C2 (confirmed) -/

/-- C2: `deleteVariant` on a product's sole remaining variant fails with
the invariant violation and leaves the state unchanged (an `.error`
result is a rolled-back transaction); deleting a variant when at least
two remain succeeds, removes exactly that variant, and leaves the product
with at least one variant; and every product with at least one variant
still has at least one variant after any successful `deleteVariant`. -/
theorem C2_last_variant_guard (s : State) (actor : Nat) (v : Variant)
    (hadmin : isAdmin s actor = true) (hn : IdsNodup s) (hv : v ∈ s.variants) :
    (countVariants s v.product_id ≤ 1 →
      deleteVariant actor v.id s = .error .invariantViolation) ∧
    (2 ≤ countVariants s v.product_id →
      deleteVariant actor v.id s = .ok (eraseVariant s v.id) ∧
      countVariants (eraseVariant s v.id) v.product_id =
        countVariants s v.product_id - 1 ∧
      (∀ pid, 1 ≤ countVariants s pid → 1 ≤ countVariants (eraseVariant s v.id) pid)) := by
  have hfind := find_variant_of_nodup s.variants v hn hv
  constructor
  · intro hle
    unfold deleteVariant
    rw [if_neg (by simp [hadmin]), hfind]
    show (if countVariants s v.product_id ≤ 1 then
            (Except.error DbError.invariantViolation : Except DbError State)
          else Except.ok (eraseVariant s v.id)) = Except.error DbError.invariantViolation
    rw [if_pos hle]
  · intro h2
    refine ⟨?_, ?_, ?_⟩
    · unfold deleteVariant
      rw [if_neg (by simp [hadmin]), hfind]
      show (if countVariants s v.product_id ≤ 1 then
              (Except.error DbError.invariantViolation : Except DbError State)
            else Except.ok (eraseVariant s v.id)) = Except.ok (eraseVariant s v.id)
      rw [if_neg (by omega)]
    · rw [countVariants_erase s v v.product_id hn hv, if_pos rfl]
    · intro pid h1
      rw [countVariants_erase s v pid hn hv]
      by_cases hp : v.product_id = pid
      · subst hp
        rw [if_pos rfl]
        omega
      · rw [if_neg hp]
        omega

/-- C2 witness: deleting variant 21 of product 2 (which has two variants)
succeeds; the fixture discharges every hypothesis. -/
theorem C2_witness :
    deleteVariant 7 21 fixState =
      .ok (eraseVariant fixState 21) :=
  ((C2_last_variant_guard fixState 7
    ({ id := 21, product_id := 2, sku := "SF-0003",
       variant_type := VariantType.weight, variant_value := "500g",
       price := 5, quantity := 3 } : Variant)
    (by decide) (by decide) (by decide)).2 (by decide)).1

/-! ## Claim C3 (corrected) -/

/-- C3 counterexample: the claim promises that for EVERY valid payload the
create succeeds and provisions a default variant with a freshly generated
SKU distinct from every existing SKU.  In `collisionState` (counter at
10233, an old variant carries `"SF-1023"`), the generated SKU for counter
value 10234 is truncated by `lpad` to `"SF-1023"` and collides, so the
insert fails with a uniqueness violation instead. -/
theorem C3_counterexample :
    isAdmin collisionState 7 = true ∧
    createProduct 7
      { name := "X", description := none, category := none, is_visible := true }
      collisionState = .error .uniquenessViolation := by
  constructor
  · decide
  · decide

/-- C3 (amended): provided every existing SKU came from the generator and
the counter has not yet reached the `lpad` truncation threshold of 10000
(and `nextId` is fresh, and the category is absent or exists),
`createProduct` inserts the product row and provisions exactly one default
variant with `variant_type = pcs`, `variant_value = "default"`,
`price = 0`, `quantity = 0` and the freshly generated SKU, which differs
from every existing SKU; reading the new product's variants returns
exactly this one variant. -/
theorem C3_default_variant_provisioning (s : State) (actor : Nat) (p : ProductPayload)
    (hadmin : isAdmin s actor = true)
    (hcc : CounterConsistent s)
    (hlt : s.skuCounter + 1 < 10000)
    (hfresh : FreshPid s)
    (hcat : nullifyEmptyCategory p.category = none ∨
      ∃ k ∈ s.categories, nullifyEmptyCategory p.category = some k.name) :
    ∃ s2 row,
      createProduct actor p s = .ok (s2, row) ∧
      row.id = s.nextId ∧
      s2.products = s.products ++ [row] ∧
      variantsOf s2 row.id =
        [{ id := s.nextId + 1, product_id := s.nextId,
           sku := genSku (s.skuCounter + 1),
           variant_type := VariantType.pcs, variant_value := "default",
           price := 0, quantity := 0 }] ∧
      (∀ w ∈ s.variants, w.sku ≠ genSku (s.skuCounter + 1)) := by
  have hne : ∀ w ∈ s.variants, w.sku ≠ genSku (s.skuCounter + 1) := by
    intro w hw heq
    obtain ⟨k, hk, hsku⟩ := hcc w hw
    have hkm := genSku_inj k (s.skuCounter + 1) (by omega) hlt (hsku ▸ heq)
    omega
  have hcatf : (nullifyEmptyCategory p.category).any
      (fun c => !(s.categories.any (fun k => k.name == c))) = false := by
    rcases hcat with hnone | ⟨k, hkmem, hkeq⟩
    · rw [hnone]
      rfl
    · rw [hkeq]
      show (!(s.categories.any (fun j => j.name == k.name))) = false
      rw [List.any_eq_true.mpr ⟨k, hkmem, by simp⟩]
      rfl
  have hskuf : s.variants.any (fun v => v.sku == genSku (s.skuCounter + 1)) = false := by
    rw [List.any_eq_false]
    intro v hv
    simpa using hne v hv
  have hpidf : s.variants.any (fun v =>
      v.product_id == s.nextId && v.variant_type == VariantType.pcs &&
      v.variant_value == "default") = false := by
    rw [List.any_eq_false]
    intro v hv
    simp [hfresh v hv]
  unfold createProduct
  rw [if_neg (by simp [hadmin]), if_neg (by simp [hcatf]), if_neg (by simp [hskuf]),
    if_neg (by simp [hpidf])]
  refine ⟨_, _, rfl, rfl, rfl, ?_, hne⟩
  show (s.variants ++
    [({ id := s.nextId + 1, product_id := s.nextId,
        sku := genSku (s.skuCounter + 1),
        variant_type := VariantType.pcs, variant_value := "default",
        price := 0, quantity := 0 } : Variant)]).filter
      (fun v => v.product_id == s.nextId) =
    [({ id := s.nextId + 1, product_id := s.nextId,
        sku := genSku (s.skuCounter + 1),
        variant_type := VariantType.pcs, variant_value := "default",
        price := 0, quantity := 0 } : Variant)]
  rw [List.filter_append]
  have h1 : s.variants.filter (fun v => v.product_id == s.nextId) = [] := by
    rw [List.filter_eq_nil_iff]
    intro v hv
    simp [hfresh v hv]
  rw [h1]
  simp

/-- C3 witness: the amended theorem applied to the empty store. -/
theorem C3_witness :
    ∃ s2 row,
      createProduct 7
        { name := "X", description := none, category := none, is_visible := true }
        { categories := [], products := [], variants := [], statusRows := [],
          admins := [7], skuCounter := 0, nextId := 0 } = .ok (s2, row) ∧
      row.id = 0 ∧
      s2.products = [] ++ [row] ∧
      variantsOf s2 row.id =
        [{ id := 1, product_id := 0, sku := genSku 1,
           variant_type := VariantType.pcs, variant_value := "default",
           price := 0, quantity := 0 }] ∧
      (∀ w ∈ ([] : List Variant), w.sku ≠ genSku 1) :=
  C3_default_variant_provisioning _ 7 _ (by decide)
    (fun v hv => absurd hv (by simp)) (by decide)
    (fun v hv => absurd hv (by simp)) (Or.inl rfl)

/-! ## Claim C4 (corrected) -/

/-- C4 counterexample: the claim states that for counter values whose
decimal representation exceeds 4 digits the full representation is kept
(`10234` giving `"SF-10234"`).  PostgreSQL `lpad(..., 4, '0')` TRUNCATES
to 4 characters, so `generate_sku` at 10234 returns `"SF-1023"`. -/
theorem C4_counterexample :
    genSku 10234 = "SF-1023" ∧ genSku 10234 ≠ "SF-10234" := by
  constructor
  · decide
  · decide

/-- C4 (amended): `generate_sku` returns the fixed prefix `SF-` and the
counter value zero-padded to width 4 (so counter 7 gives `"SF-0007"` and
every value below 10000 gives a 7-character, injectively formatted SKU),
but for counter values of more than 4 digits `lpad` truncates the digits
to the first 4 (instead of letting the width grow); the sequence itself
is strictly increasing: each call advances the counter by one and returns
the SKU of the new counter value. -/
theorem C4_sku_format :
    genSku 7 = "SF-0007" ∧
    (∀ n, n < 10000 → (genSku n).length = 7) ∧
    (∀ n m, n < 10000 → m < 10000 → genSku n = genSku m → n = m) ∧
    (∀ n, 10000 ≤ n → genSku n = String.mk ('S' :: 'F' :: '-' :: (natRepr n).take 4)) ∧
    (∀ s : State, (generateSkuOp s).2.skuCounter = s.skuCounter + 1 ∧
      (generateSkuOp s).1 = genSku (s.skuCounter + 1)) :=
  ⟨by decide, genSku_length, genSku_inj, genSku_truncates, fun _ => ⟨rfl, rfl⟩⟩

/-- C4 witness: the length clause applied to a concrete counter value. -/
theorem C4_witness : (genSku 17).length = 7 :=
  C4_sku_format.2.1 17 (by decide)

/-! ## Claim C5 (corrected) -/

/-- C5 counterexample: the claim states a string containing `mg` is scaled
by 1/1000 (so `"500mg"` would give 0.5 grams).  Since `"mg"` contains
`"g"`, the bare-grams branch fires first and the `mg` branch is dead code:
the code returns 500. -/
theorem C5_counterexample :
    parseWeightInGrams "500mg".data = some 500 ∧
    parseWeightInGrams "500mg".data ≠ some (1 / 2 : ℚ) := by
  have h : parseWeightInGrams "500mg".data = some 500 := by decide
  refine ⟨h, ?_⟩
  rw [h]
  intro hc
  injection hc with hv
  norm_num at hv

/-- C5 (amended): for every input string the weight normalizer extracts
the first decimal number of the lowercased string and multiplies it by
the factor chosen by substring match - `kg` gives 1000; a `g` without
`kg` gives 1, a case that swallows every `mg` string (the `mg` branch is
unreachable); `lb`/`pound` gives 453.592; `oz`/`ounce` gives 28.3495; no
unit keyword leaves the raw number; no numeric substring yields `none`. -/
theorem C5_weight_normalizer (l : List Char) :
    parseWeightInGrams l =
      (extractNumber (toLowerL l)).map (fun q => q * specWeightFactor (toLowerL l)) := by
  unfold parseWeightInGrams specWeightFactor
  rcases hx : extractNumber (toLowerL l) with _ | num <;>
    simp only [hx, Option.map_none', Option.map_some']
  rcases hkg : containsSub (toLowerL l) ['k', 'g'] with _ | _
  · rcases hg : containsSub (toLowerL l) ['g'] with _ | _
    · have hmg : containsSub (toLowerL l) ['m', 'g'] = false := by
        rcases hmg2 : containsSub (toLowerL l) ['m', 'g'] with _ | _
        · rfl
        · rw [contains_g_of_contains_mg _ hmg2] at hg
          cases hg
      rcases hlb : (containsSub (toLowerL l) ['l', 'b'] ||
          containsSub (toLowerL l) ['p', 'o', 'u', 'n', 'd']) with _ | _
      · rcases hoz : (containsSub (toLowerL l) ['o', 'z'] ||
            containsSub (toLowerL l) ['o', 'u', 'n', 'c', 'e']) with _ | _
        · simp [hkg, hg, hmg, hlb, hoz]
        · simp only [hkg, hg, hmg, hlb, hoz, Bool.false_eq_true, if_false, if_true,
            Bool.and_self, Bool.not_false, Option.some.injEq]
          rw [qmul_eq, Rat.divInt_eq_div]
          norm_num
      · simp only [hkg, hg, hmg, hlb, Bool.false_eq_true, if_false, if_true,
          Bool.and_self, Bool.not_false, Option.some.injEq]
        rw [qmul_eq, Rat.divInt_eq_div]
        norm_num
    · simp [hkg, hg]
  · simp only [hkg, if_true, Option.some.injEq]
    rw [qmul_eq]

/-! ## Claim C6 (corrected) -/

/-- C6 counterexample: the claim asserts the comparator is a total order
(in particular transitive).  With the per-pair parse-mode choice, the
pcs-typed `"2lb"` parses as 2 against another pcs variant but as 907.184
grams against a weight variant: `"2lb" < "500"`, `"500" < "600g"`, yet
`"600g" < "2lb"` - a strict cycle. -/
theorem C6_counterexample :
    variantCmp (pVar 1 "2lb") (pVar 2 "500") < 0 ∧
    variantCmp (pVar 2 "500") (wVar 3 "600g") < 0 ∧
    0 < variantCmp (pVar 1 "2lb") (wVar 3 "600g") := by
  refine ⟨?_, ?_, ?_⟩ <;> decide

/-- C6 (amended): the comparator behaves exactly as cases (a)-(d) with
the parse function chosen per compared pair; all four concrete sorting
scenarios of the claim hold; and for any FIXED parse function the
comparator is a total preorder - `<= 0` is transitive and a comparison
of 0 forces case-insensitive equality of the raw values - so the
comparator is a total order on any list whose comparisons all use one
parse mode (e.g. homogeneous lists), while mixed lists can produce the
cycle of the counterexample. -/
theorem C6_comparator_behaviour :
    sortVariants [wVar 1 "1kg", wVar 2 "500g", wVar 3 "250g"] =
      [wVar 3 "250g", wVar 2 "500g", wVar 1 "1kg"] ∧
    sortVariants [wVar 1 "2lb", wVar 2 "1000g"] = [wVar 1 "2lb", wVar 2 "1000g"] ∧
    sortVariants [pVar 1 "12pcs", pVar 2 "6pcs"] = [pVar 2 "6pcs", pVar 1 "12pcs"] ∧
    sortVariants [sVar 1 "Small" 5, sVar 2 "Large" 5] =
      [sVar 2 "Large" 5, sVar 1 "Small" 5] ∧
    (∀ (p : List Char → Option ℚ) (a b c : Variant),
      cmpWithParse p a b ≤ 0 → cmpWithParse p b c ≤ 0 → cmpWithParse p a c ≤ 0) ∧
    (∀ (p : List Char → Option ℚ) (a b : Variant),
      cmpWithParse p a b = 0 →
      toLowerL a.variant_value.data = toLowerL b.variant_value.data) ∧
    (∀ a b : Variant,
      (a.variant_type = VariantType.weight ∨ b.variant_type = VariantType.weight) →
      variantCmp a b = cmpWithParse parseWeightInGrams a b) ∧
    (∀ a b : Variant,
      (¬a.variant_type = VariantType.weight ∧ ¬b.variant_type = VariantType.weight) →
      variantCmp a b = cmpWithParse parseNumericValue a b) := by
  refine ⟨by decide, by decide, by decide, by decide,
    cmpWithParse_le_trans, cmpWithParse_eq_zero, ?_, ?_⟩
  · intro a b h
    unfold variantCmp pairParse
    rw [if_pos h]
  · intro a b h
    unfold variantCmp pairParse
    rw [if_neg (by tauto)]

/-- C6 witness: the transitivity clause applied to three concrete pcs
variants. -/
theorem C6_witness :
    cmpWithParse parseNumericValue (pVar 2 "6pcs") (pVar 1 "12pcs") ≤ 0 :=
  C6_comparator_behaviour.2.2.2.2.1 parseNumericValue
    (pVar 2 "6pcs") (pVar 2 "6pcs") (pVar 1 "12pcs") (by decide) (by decide)

/-! ## Claim C7 (corrected) -/

/-- C7 counterexample: the claim states the parse mode is chosen per SET
(any weight variant in the list makes every value weight-parsed).  The
code chooses per PAIR: in `["2lb" pcs, "500" pcs, "1000g" weight]` the
comparison of the two pcs variants parses plainly (2 vs 500) although a
weight variant is in the set, so the code's sort differs from the per-set
sort the claim describes. -/
theorem C7_counterexample :
    sortVariants [pVar 1 "2lb", pVar 2 "500", wVar 3 "1000g"] =
      [pVar 1 "2lb", pVar 2 "500", wVar 3 "1000g"] ∧
    sortVariantsSpecSet [pVar 1 "2lb", pVar 2 "500", wVar 3 "1000g"] =
      [pVar 2 "500", pVar 1 "2lb", wVar 3 "1000g"] ∧
    sortVariants [pVar 1 "2lb", pVar 2 "500", wVar 3 "1000g"] ≠
      sortVariantsSpecSet [pVar 1 "2lb", pVar 2 "500", wVar 3 "1000g"] := by
  refine ⟨?_, ?_, ?_⟩ <;> decide

/-- C7 (amended): the parse mode is chosen per compared pair, so the
number assigned to one value can differ between comparisons of one sort;
but on any list that is homogeneous - every variant weight-typed, or no
variant weight-typed - the per-pair choice coincides with the per-set
choice the spec describes, and the code's sort equals the per-set sort. -/
theorem C7_per_set_agreement (l : List Variant)
    (h : (∀ v ∈ l, v.variant_type = VariantType.weight) ∨
      (∀ v ∈ l, v.variant_type ≠ VariantType.weight)) :
    sortVariants l = sortVariantsSpecSet l := by
  unfold sortVariants sortVariantsSpecSet
  apply sortBy_congr
  intro a ha b hb
  have hcmp : variantCmp a b = cmpWithParse (setParse l) a b := by
    unfold variantCmp pairParse setParse
    rcases h with hall | hnone
    · rw [if_pos (Or.inl (hall a ha))]
      rw [show l.any (fun v => v.variant_type == VariantType.weight) = true from
        List.any_eq_true.mpr ⟨a, ha, by simp [hall a ha]⟩]
      simp
    · rw [if_neg (by push_neg; exact ⟨hnone a ha, hnone b hb⟩)]
      rw [show l.any (fun v => v.variant_type == VariantType.weight) = false from
        List.any_eq_false.mpr (fun v hv => by simp [hnone v hv])]
      simp
  rw [hcmp]

/-- C7 witness: the agreement applied to an all-weight list. -/
theorem C7_witness :
    sortVariants [wVar 1 "1kg", wVar 2 "500g"] =
      sortVariantsSpecSet [wVar 1 "1kg", wVar 2 "500g"] :=
  C7_per_set_agreement [wVar 1 "1kg", wVar 2 "500g"] (Or.inl (by decide))

/-! ## Claim C8 (corrected) -/

/-- C8 counterexample: the three resolver copies are NOT extensionally
equal.  AdminDashboard's `parseNumericValue` uses the regex
`[^\d]*(\d+(?:\.\d+)?)`, which skips a leading dot, while Index's
`[\d\.]+` keeps it: on `".5x"` Index parses 0.5 (= `mkRat 1 2`) and the
admin page parses 5, and the two pages sort `[".5x", "2x"]` (pcs) in
opposite orders. -/
theorem C8_counterexample :
    parseNumericValue ".5x".data = some (mkRat 1 2) ∧
    parseNumericValueAdmin ".5x".data = some 5 ∧
    sortVariants [pVar 1 ".5x", pVar 2 "2x"] = [pVar 1 ".5x", pVar 2 "2x"] ∧
    sortVariantsAdmin [pVar 1 ".5x", pVar 2 "2x"] = [pVar 2 "2x", pVar 1 ".5x"] ∧
    sortVariantsAdmin [pVar 1 ".5x", pVar 2 "2x"] ≠
      sortVariants [pVar 1 ".5x", pVar 2 "2x"] := by
  refine ⟨?_, ?_, ?_, ?_, ?_⟩ <;> decide

/-- C8 (amended): the catalog page (Index.tsx) and the product detail
dialog embed character-identical resolvers and are extensionally equal -
same numeric parser, same comparator, same sort, same active-variant
selection; the admin dashboard agrees with them on every comparison
involving a weight-typed variant (the weight parser is shared), but its
plain numeric parser - hence its sort of non-weight variants - differs. -/
theorem C8_resolver_copies :
    (∀ l, parseNumericValueDialog l = parseNumericValue l) ∧
    (∀ a b, variantCmpDialog a b = variantCmp a b) ∧
    (∀ l, sortVariantsDialog l = sortVariants l) ∧
    (∀ sel l, activeVariantDialog sel l = activeVariant sel l) ∧
    (∀ a b : Variant,
      (a.variant_type = VariantType.weight ∨ b.variant_type = VariantType.weight) →
      variantCmpAdmin a b = variantCmp a b) := by
  refine ⟨parseNumericValueDialog_eq, variantCmpDialog_eq, sortVariantsDialog_eq,
    activeVariantDialog_eq, ?_⟩
  intro a b h
  unfold variantCmpAdmin variantCmp pairParseAdmin pairParse
  rw [if_pos h, if_pos h]

/-- C8 witness: the admin/catalog agreement on a weight pair. -/
theorem C8_witness :
    variantCmpAdmin (wVar 1 "1kg") (wVar 2 "500g") =
      variantCmp (wVar 1 "1kg") (wVar 2 "500g") :=
  C8_resolver_copies.2.2.2.2 (wVar 1 "1kg") (wVar 2 "500g") (Or.inl rfl)

/-! ## Claim C9 (corrected) -/

/-- C9 counterexample: the claim states every mutating operation by a
non-admin FAILS with NotAuthorized.  Row-level security only raises on
INSERT (`with check`); UPDATE and DELETE are silently filtered to zero
rows and report success: actor 5 is no admin, yet its deletes return
`.ok` with the state unchanged rather than an error. -/
theorem C9_counterexample :
    isAdmin fixState 5 = false ∧
    deleteVariant 5 10 fixState = .ok fixState ∧
    deleteProduct 5 1 fixState = .ok fixState := by
  refine ⟨?_, ?_, ?_⟩ <;> decide

/-- C9 (amended): a non-admin actor causes no state change through any
mutating operation, and reads are actor-independent; but only the INSERT
operations fail with NotAuthorized (the RLS `with check` violation),
while UPDATE and DELETE are silently filtered to zero affected rows and
report success. -/
theorem C9_rls_authorization (s : State) (actor : Nat)
    (h : isAdmin s actor = false) :
    (∀ p, createProduct actor p s = .error .notAuthorized) ∧
    (∀ q, createVariant actor q s = .error .notAuthorized) ∧
    (∀ name, createCategory actor name s = .error .notAuthorized) ∧
    (∀ b t, insertStoreStatus actor b t s = .error .notAuthorized) ∧
    (∀ vid, deleteVariant actor vid s = .ok s) ∧
    (∀ pid, deleteProduct actor pid s = .ok s) ∧
    (∀ cid, deleteCategory actor cid s = .ok s) ∧
    (∀ vid qty, updateVariantQuantity actor vid qty s = .ok s) ∧
    (∀ sid b, updateStoreStatus actor sid b s = .ok s) ∧
    (∀ a2, selectProducts actor s = selectProducts a2 s) := by
  refine ⟨?_, ?_, ?_, ?_, ?_, ?_, ?_, ?_, ?_, ?_⟩
  · intro p
    unfold createProduct
    rw [if_pos h]
  · intro q
    unfold createVariant
    rw [if_pos h]
  · intro name
    unfold createCategory
    rw [if_pos h]
  · intro b t
    unfold insertStoreStatus
    rw [if_pos h]
  · intro vid
    unfold deleteVariant
    rw [if_pos h]
  · intro pid
    unfold deleteProduct
    rw [if_pos h]
  · intro cid
    unfold deleteCategory
    rw [if_pos h]
  · intro vid qty
    unfold updateVariantQuantity
    rw [if_pos h]
  · intro sid b
    unfold updateStoreStatus
    rw [if_pos h]
  · intro a2
    rfl

/-- C9 witness: a non-admin insert fails with NotAuthorized on the
fixture. -/
theorem C9_witness :
    createProduct 5
      { name := "X", description := none, category := none, is_visible := true }
      fixState = .error .notAuthorized :=
  (C9_rls_authorization fixState 5 (by decide)).1 _

/-! ## Claim C10 (confirmed) -/

/-- C10: the public dashboard's effective store status is Open (`true`)
when the status query fails or returns no rows; otherwise it is the
`is_open` of a row with the greatest `updated_at`. -/
theorem C10_store_status_fallback :
    effectiveStoreStatus none = true ∧
    effectiveStoreStatus (some []) = true ∧
    (∀ rows : List StatusRow, rows ≠ [] →
      ∃ r ∈ rows, (∀ r2 ∈ rows, r2.updated_at ≤ r.updated_at) ∧
        effectiveStoreStatus (some rows) = r.is_open) := by
  refine ⟨rfl, rfl, ?_⟩
  intro rows hne
  match rows, hne with
  | x :: xs, _ =>
    obtain ⟨r, hr⟩ := topStatus_isSome x xs
    obtain ⟨hmem, hmax⟩ := topStatus_spec (x :: xs) r hr
    refine ⟨r, hmem, hmax, ?_⟩
    show (match topStatus (x :: xs) with
          | none => true
          | some r => r.is_open) = r.is_open
    rw [hr]

/-- C10 witness: a two-row table where the later row is closed. -/
theorem C10_witness :
    ∃ r ∈ [(⟨1, true, 4⟩ : StatusRow), ⟨2, false, 9⟩],
      (∀ r2 ∈ [(⟨1, true, 4⟩ : StatusRow), ⟨2, false, 9⟩],
        r2.updated_at ≤ r.updated_at) ∧
      effectiveStoreStatus (some [(⟨1, true, 4⟩ : StatusRow), ⟨2, false, 9⟩]) =
        r.is_open :=
  C10_store_status_fallback.2.2 [⟨1, true, 4⟩, ⟨2, false, 9⟩] (by decide)

end ShreejiFoods
